import Mathlib

/-!
Verification development for the TaylorRoast check-in manager.

The store layer (src/lib/db.ts) is embedded as pure functions over an
explicit `DB` state: each SQL statement becomes the corresponding list
transformation, fallible operations return `Except String`.  The sync
engine (src/lib/useGroups.ts) is embedded as optimistic/commit snapshot
transformers.  The HTTP handlers (src/app/api/groups/route.ts) are
embedded as functions from request data to status code plus body.
-/

namespace TaylorRoast

/-- Row of the groups table (src/lib/db.ts, `interface Group`). -/
structure Group where
  id : Int
  name : String
  created_at : String
deriving Repr, DecidableEq

/-- Row of the members table (src/lib/db.ts, `interface Member`). -/
structure Member where
  id : Int
  group_id : Int
  name : String
  checked_in : Bool
  created_at : String
deriving Repr, DecidableEq

/-- A group together with its member list (src/lib/db.ts, `interface GroupWithMembers`). -/
structure GroupWithMembers where
  id : Int
  name : String
  created_at : String
  members : List Member
deriving Repr, DecidableEq

/-- State of the SQLite store: the two tables plus the AUTOINCREMENT
counters of their integer primary keys. -/
structure DB where
  groups : List Group
  members : List Member
  nextGroupId : Int
  nextMemberId : Int
deriving Repr, DecidableEq

/-- Embeds JavaScript `String.prototype.trim`: whitespace removed from
both ends of the string.  (Defined over the character list so that it
evaluates inside the kernel.) -/
def jsTrim (s : String) : String :=
  ⟨(((s.data.dropWhile Char.isWhitespace).reverse.dropWhile Char.isWhitespace).reverse)⟩

/-- Embeds the TypeScript idiom `name?.trim() || dflt` used by
`createGroup` and `createMember`: a missing name or a name that trims
to the empty string falls back to the default placeholder. -/
def defaultedName (name : Option String) (dflt : String) : String :=
  match name with
  | none => dflt
  | some s => if jsTrim s = "" then dflt else jsTrim s

/-- Error message produced when the code reads field access off the
`undefined` value `rows[0]` of an empty result set. -/
def undefinedRowError : String :=
  "TypeError: Cannot read properties of undefined (reading id)"

/-- Embeds `createGroup(name?)` of src/lib/db.ts.  The INSERT statement
has no RETURNING clause, so the libsql client yields an empty `rows`
array; `rowToGroup(rows[0])` then dereferences `undefined` and throws.
The row itself is nevertheless inserted before the throw. -/
def createGroup (db : DB) (name : Option String) (now : String) :
    Except String Group × DB :=
  let n := defaultedName name "New Group"
  let inserted : Group := ⟨db.nextGroupId, n, now⟩
  let db' : DB :=
    { db with groups := db.groups ++ [inserted], nextGroupId := db.nextGroupId + 1 }
  let rows : List Group := []
  match rows.head? with
  | some r => (.ok r, db')
  | none => (.error undefinedRowError, db')

/-- Embeds `updateGroup(id, name)` of src/lib/db.ts: UPDATE the name to
its trimmed value, then SELECT the row back; throw "Group not found"
when the SELECT returns no row. -/
def updateGroup (db : DB) (id : Int) (name : String) :
    Except String Group × DB :=
  let groups := db.groups.map (fun g => if g.id == id then { g with name := jsTrim name } else g)
  let db' : DB := { db with groups := groups }
  ((match groups.filter (fun g => g.id == id) with
    | [] => .error "Group not found"
    | r :: _ => .ok r), db')

/-- Embeds `deleteGroup(id)` of src/lib/db.ts: DELETE FROM groups WHERE
id = ?.  The schema declares `members.group_id REFERENCES groups(id)
ON DELETE CASCADE` and `ensureSchema` turns foreign-key enforcement on
for the shared connection, so every member of a deleted group row is
deleted with it. -/
def deleteGroup (db : DB) (id : Int) : DB :=
  let deleted := db.groups.filter (fun g => g.id == id)
  { db with
    groups := db.groups.filter (fun g => !(g.id == id)),
    members := db.members.filter (fun m => !(deleted.any (fun g => g.id == m.group_id))) }

/-- Embeds `createMember(groupId, name?)` of src/lib/db.ts: INSERT the
member, then SELECT it back via `last_insert_rowid()`.  With foreign
keys enforced the INSERT fails when `groupId` references no group. -/
def createMember (db : DB) (groupId : Int) (name : Option String) (now : String) :
    Except String Member × DB :=
  if db.groups.any (fun g => g.id == groupId) then
    let inserted : Member := ⟨db.nextMemberId, groupId, defaultedName name "New Member", false, now⟩
    let members := db.members ++ [inserted]
    let db' : DB := { db with members := members, nextMemberId := db.nextMemberId + 1 }
    ((match members.filter (fun m => m.id == inserted.id) with
      | [] => .error "Member not found"
      | r :: _ => .ok r), db')
  else
    (.error "SQLITE_CONSTRAINT: FOREIGN KEY constraint failed", db)

/-- Shared shape of the three populated branches of `updateMember` in
src/lib/db.ts: UPDATE the present fields of the row, SELECT it back,
throw "Member not found" when the SELECT returns no row. -/
def applyMemberUpdate (db : DB) (id : Int) (f : Member → Member) :
    Except String Member × DB :=
  let members := db.members.map (fun m => if m.id == id then f m else m)
  let db' : DB := { db with members := members }
  ((match members.filter (fun m => m.id == id) with
    | [] => .error "Member not found"
    | r :: _ => .ok r), db')

/-- Embeds `updateMember(id, data)` of src/lib/db.ts: one branch per
combination of present fields; with neither field present no statement
runs and "No fields to update" is thrown. -/
def updateMember (db : DB) (id : Int) (name : Option String) (checked_in : Option Bool) :
    Except String Member × DB :=
  match name, checked_in with
  | some n, some c => applyMemberUpdate db id (fun m => { m with name := jsTrim n, checked_in := c })
  | some n, none => applyMemberUpdate db id (fun m => { m with name := jsTrim n })
  | none, some c => applyMemberUpdate db id (fun m => { m with checked_in := c })
  | none, none => (.error "No fields to update", db)

/-- Embeds `deleteMember(id)` of src/lib/db.ts: DELETE FROM members
WHERE id = ?. -/
def deleteMember (db : DB) (id : Int) : DB :=
  { db with members := db.members.filter (fun m => !(m.id == id)) }

/-- Ordering of group rows produced by ORDER BY created_at ASC. -/
def byCreatedG (a b : Group) : Prop := a.created_at ≤ b.created_at

/-- Ordering of member rows produced by ORDER BY created_at ASC. -/
def byCreatedM (a b : Member) : Prop := a.created_at ≤ b.created_at

instance : DecidableRel byCreatedG :=
  fun a b => inferInstanceAs (Decidable (a.created_at ≤ b.created_at))

instance : DecidableRel byCreatedM :=
  fun a b => inferInstanceAs (Decidable (a.created_at ≤ b.created_at))

instance : IsTotal Group byCreatedG := ⟨fun a b => le_total a.created_at b.created_at⟩

instance : IsTrans Group byCreatedG := ⟨fun _ _ _ h h2 => le_trans h h2⟩

instance : IsTotal Member byCreatedM := ⟨fun a b => le_total a.created_at b.created_at⟩

instance : IsTrans Member byCreatedM := ⟨fun _ _ _ h h2 => le_trans h h2⟩

/-- The `Map<number, Member[]>` of `getAllGroupsWithMembers`, with
`map.get(k) ?? []` embedded as application with default `[]`. -/
def MemberMap := Int → List Member

/-- Embeds one iteration of the grouping loop of
`getAllGroupsWithMembers`: look the group key up, push the member onto
the list, store it back. -/
def pushMember (mp : MemberMap) (m : Member) : MemberMap :=
  fun k => if k == m.group_id then mp m.group_id ++ [m] else mp k

/-- Embeds `getAllGroupsWithMembers()` of src/lib/db.ts: fetch all
groups ordered by created_at, fetch all members ordered by created_at,
group members by foreign key in one pass over a Map, then attach
`membersByGroup.get(g.id) ?? []` to every group. -/
def getAllGroupsWithMembers (db : DB) : List GroupWithMembers :=
  let groups := List.insertionSort byCreatedG db.groups
  let members := List.insertionSort byCreatedM db.members
  let membersByGroup := members.foldl pushMember (fun _ => [])
  groups.map (fun g => ⟨g.id, g.name, g.created_at, membersByGroup g.id⟩)

/-- Declarative reading of `listAll` taken from the spec text: every
group ordered by creation time ascending, each populated with exactly
its own members ordered by creation time ascending.  Stated separately
so that C9 can compare the two-pass implementation against it. -/
def listAllSpec (db : DB) : List GroupWithMembers :=
  (List.insertionSort byCreatedG db.groups).map (fun g =>
    ⟨g.id, g.name, g.created_at,
      (List.insertionSort byCreatedM db.members).filter (fun m => m.group_id == g.id)⟩)

/-- Referential integrity of the store: every member row references a
live group row (the FOREIGN KEY of the schema in `ensureSchema`). -/
def refIntegrity (db : DB) : Bool :=
  db.members.all (fun m => db.groups.any (fun g => g.id == m.group_id))

/-- The store operations, for quantifying over every mutation of the
Store interface at once. -/
inductive StoreOp where
  | createGroup (name : Option String) (now : String)
  | updateGroup (id : Int) (name : String)
  | deleteGroup (id : Int)
  | createMember (groupId : Int) (name : Option String) (now : String)
  | updateMember (id : Int) (name : Option String) (checked_in : Option Bool)
  | deleteMember (id : Int)
deriving Repr, DecidableEq

/-- State reached by running one store operation (the resulting store
of the corresponding db.ts function; a failed operation leaves the
store as the function left it). -/
def applyOp (db : DB) : StoreOp → DB
  | .createGroup name now => (createGroup db name now).2
  | .updateGroup id name => (updateGroup db id name).2
  | .deleteGroup id => deleteGroup db id
  | .createMember groupId name now => (createMember db groupId name now).2
  | .updateMember id name checked_in => (updateMember db id name checked_in).2
  | .deleteMember id => deleteMember db id

/-- Embeds the JavaScript falsiness test `!body.id` on an optional
numeric field: absent or zero. -/
def jsFalsyInt (i : Option Int) : Bool :=
  match i with
  | none => true
  | some v => v == 0

/-- Embeds the JavaScript falsiness test `!body.name` on an optional
string field: absent or the empty string. -/
def jsFalsyStr (s : Option String) : Bool :=
  match s with
  | none => true
  | some v => v == ""

/-- Embeds `POST /api/groups` of src/app/api/groups/route.ts: call
`createGroup`, respond 201 with the group on success, 500 with the
error message when `createGroup` throws. -/
def postGroups (db : DB) (name : Option String) (now : String) :
    (Nat × Except String Group) × DB :=
  match createGroup db name now with
  | (.ok g, db') => ((201, .ok g), db')
  | (.error e, db') => ((500, .error e), db')

/-- Embeds `PUT /api/groups` of src/app/api/groups/route.ts: 400 when
`body.id` or `body.name` is falsy, otherwise delegate to `updateGroup`
and map a thrown error to a 500 response. -/
def putGroups (db : DB) (id : Option Int) (name : Option String) :
    (Nat × Except String Group) × DB :=
  if jsFalsyInt id || jsFalsyStr name then
    ((400, .error "id and name are required"), db)
  else
    match id, name with
    | some i, some n =>
      (match updateGroup db i n with
       | (.ok g, db') => ((200, .ok g), db')
       | (.error e, db') => ((500, .error e), db'))
    | _, _ => ((400, .error "id and name are required"), db)

/-- Client-side cache snapshot of the sync engine: the full list of
groups with their members (useGroups.ts, `GroupWithMembers[]`). -/
abbrev Snapshot := List GroupWithMembers

/-- Parsed JSON body of a successful mutation response. -/
inductive ServerResp where
  | group (g : Group)
  | member (m : Member)
  | ok
deriving Repr, DecidableEq

/-- One sync-engine mutation, split into its optimistic updater (the
`optimisticData` function applied to the previous snapshot) and its
commit updater (the async updater that splices the parsed server
response into the current snapshot). -/
structure MutationOp where
  optimistic : Snapshot → Snapshot
  commit : Snapshot → ServerResp → Snapshot

/-- Embeds `addGroup` of useGroups.ts: optimistically append a
temporary group with sentinel id `tempId = -Date.now()`, then replace
the optimistic entry with the actual server response. -/
def addGroup (name : Option String) (tempId : Int) (now : String) : MutationOp where
  optimistic := fun prev => prev ++ [⟨tempId, defaultedName name "New Group", now, []⟩]
  commit := fun cur resp =>
    match resp with
    | .group created =>
      cur.map (fun g => if g.id == tempId then ⟨created.id, created.name, created.created_at, []⟩ else g)
    | _ => cur

/-- Embeds `renameGroup` of useGroups.ts: optimistically set the new
name on the matching group, then merge the updated server row into it
(the spread `\x7b...g, ...updated\x7d` keeps the member list). -/
def renameGroup (id : Int) (name : String) : MutationOp where
  optimistic := fun prev => prev.map (fun g => if g.id == id then { g with name := name } else g)
  commit := fun cur resp =>
    match resp with
    | .group updated =>
      cur.map (fun g =>
        if g.id == id then
          { g with id := updated.id, name := updated.name, created_at := updated.created_at }
        else g)
    | _ => cur

/-- Embeds `removeGroup` of useGroups.ts: filter the group out both
optimistically and after the call succeeds. -/
def removeGroup (id : Int) : MutationOp where
  optimistic := fun prev => prev.filter (fun g => !(g.id == id))
  commit := fun cur _ => cur.filter (fun g => !(g.id == id))

/-- Embeds `addMember` of useGroups.ts: optimistically append a member
with sentinel id `tempId = -Date.now()` to the matching group, then
replace the sentinel member with the created server member. -/
def addMember (groupId : Int) (name : Option String) (tempId : Int) (now : String) : MutationOp where
  optimistic := fun prev =>
    prev.map (fun g =>
      if g.id == groupId then
        { g with members := g.members ++ [⟨tempId, groupId, defaultedName name "New Member", false, now⟩] }
      else g)
  commit := fun cur resp =>
    match resp with
    | .member created =>
      cur.map (fun g =>
        if g.id == groupId then
          { g with members := g.members.map (fun m => if m.id == tempId then created else m) }
        else g)
    | _ => cur

/-- Embeds `editMember` of useGroups.ts: optimistically overwrite the
fields present in `updates` on the matching member, then replace the
member with the updated server row. -/
def editMember (id : Int) (groupId : Int) (name : Option String) (checked_in : Option Bool) :
    MutationOp where
  optimistic := fun prev =>
    prev.map (fun g =>
      if g.id == groupId then
        { g with members := g.members.map (fun m =>
            if m.id == id then
              { m with name := name.getD m.name, checked_in := checked_in.getD m.checked_in }
            else m) }
      else g)
  commit := fun cur resp =>
    match resp with
    | .member updated =>
      cur.map (fun g =>
        if g.id == groupId then
          { g with members := g.members.map (fun m => if m.id == id then updated else m) }
        else g)
    | _ => cur

/-- Embeds `removeMember` of useGroups.ts: filter the member out of the
matching group both optimistically and after the call succeeds. -/
def removeMember (id : Int) (groupId : Int) : MutationOp where
  optimistic := fun prev =>
    prev.map (fun g =>
      if g.id == groupId then { g with members := g.members.filter (fun m => !(m.id == id)) } else g)
  commit := fun cur _ =>
    cur.map (fun g =>
      if g.id == groupId then { g with members := g.members.filter (fun m => !(m.id == id)) } else g)

/-- Modelled from the spec: the commit-phase snapshot of the four-phase
mutate protocol run by the SWR library (a dependency whose source is
not part of this repository).  Phase 1 publishes the optimistic
snapshot; phase 2 applies the commit splice to that current snapshot
using the parsed server response. -/
def commitSnapshot (op : MutationOp) (prev : Snapshot) (resp : ServerResp) : Snapshot :=
  op.commit (op.optimistic prev) resp

/-- Modelled from the spec: cache snapshot and surfaced error once a
mutation settles (before the revalidation re-fetch).  On success the
commit-phase snapshot stands with no error; on failure (non-success
response or transport error) `rollbackOnError` restores the snapshot
from before phase 1 and the error is surfaced to the caller. -/
def mutationFinal (op : MutationOp) (prev : Snapshot) (resp : Except String ServerResp) :
    Snapshot × Option String :=
  match resp with
  | .ok r => (commitSnapshot op prev r, none)
  | .error e => (prev, some e)

/-- Name of a group as read from a cache snapshot. -/
def groupNameIn (s : Snapshot) (id : Int) : Option String :=
  (s.find? (fun g => g.id == id)).map (fun g => g.name)

/-- Member list of a group as read from a cache snapshot. -/
def membersOf (s : Snapshot) (gid : Int) : List Member :=
  match s.find? (fun g => g.id == gid) with
  | some g => g.members
  | none => []

/-! ### Helper lemmas -/

/-- Mapping a function that fixes every element of a list is the
identity on that list. -/
theorem map_id_of_mem {α : Type} {f : α → α} {l : List α} (h : ∀ a ∈ l, f a = a) :
    l.map f = l := by
  induction l with
  | nil => rfl
  | cons a l ih =>
    simp only [List.map_cons, h a (List.mem_cons_self a l)]
    rw [ih (fun b hb => h b (List.mem_cons_of_mem a hb))]

/-- `find?` commutes with a map whose function preserves the predicate. -/
theorem find?_map_pred {α : Type} (p : α → Bool) (f : α → α) (h : ∀ a, p (f a) = p a)
    (l : List α) : (l.map f).find? p = (l.find? p).map f := by
  induction l with
  | nil => rfl
  | cons a l ih =>
    simp only [List.map_cons, List.find?_cons, h a]
    cases hp : p a <;> simp [ih]

/-- Updating the member list of the group matching `gid` does not
change which snapshot entry `find?` locates; the located entry carries
the transformed member list. -/
theorem find?_mapMembers (s : Snapshot) (gid : Int) (g0 : GroupWithMembers)
    (T : GroupWithMembers → List Member)
    (hfind : s.find? (fun g => g.id == gid) = some g0) :
    (s.map (fun g => if g.id == gid then { g with members := T g } else g)).find?
        (fun g => g.id == gid) = some { g0 with members := T g0 } := by
  have hp : (g0.id == gid) = true := by
    simpa using @List.find?_some GroupWithMembers (fun g => g.id == gid) g0 s hfind
  have hpred : ∀ g : GroupWithMembers,
      ((if g.id == gid then { g with members := T g } else g).id == gid) = (g.id == gid) := by
    intro g
    cases h : g.id == gid <;> simp [h]
  have hp' : g0.id = gid := by simpa using hp
  rw [find?_map_pred _ _ hpred, hfind]
  simp [hp']

/-- Member list read back from a snapshot after a per-group member-list
update. -/
theorem membersOf_mapMembers (s : Snapshot) (gid : Int) (g0 : GroupWithMembers)
    (T : GroupWithMembers → List Member)
    (hfind : s.find? (fun g => g.id == gid) = some g0) :
    membersOf (s.map (fun g => if g.id == gid then { g with members := T g } else g)) gid
      = T g0 := by
  unfold membersOf
  rw [find?_mapMembers s gid g0 T hfind]

/-- The grouping loop of `getAllGroupsWithMembers` collects, at each
key, exactly the members carrying that foreign key, in input order. -/
theorem foldl_pushMember (ms : List Member) (mp : MemberMap) (k : Int) :
    ms.foldl pushMember mp k = mp k ++ ms.filter (fun m => m.group_id == k) := by
  induction ms generalizing mp with
  | nil => simp
  | cons m rest ih =>
    rw [List.foldl_cons, ih, List.filter_cons]
    by_cases h : m.group_id = k
    · subst h
      simp [pushMember, List.append_assoc]
    · have h1 : (m.group_id == k) = false := by simp [h]
      have h2 : (k == m.group_id) = false := by simp [Ne.symm h]
      simp [pushMember, h1, h2]

/-- The two-pass implementation of `getAllGroupsWithMembers` computes
the declarative read model. -/
theorem getAllGroupsWithMembers_eq (db : DB) :
    getAllGroupsWithMembers db = listAllSpec db := by
  unfold getAllGroupsWithMembers listAllSpec
  apply List.map_congr_left
  intro g _
  simp [foldl_pushMember]

/-- The referential-integrity check, read as a proposition. -/
theorem refIntegrity_iff (db : DB) :
    refIntegrity db = true ↔ ∀ m ∈ db.members, ∃ g ∈ db.groups, g.id = m.group_id := by
  simp [refIntegrity, List.all_eq_true, List.any_eq_true]

/-! ### Claims -/

/-- C1: for every sync-engine mutation whose commit-phase network call
fails, the cache after the operation rejects equals the snapshot from
immediately before the optimistic phase, and the error is surfaced; in
particular a failing `renameGroup(1, "New")` leaves group 1 cached
under its pre-call name. -/
theorem C1_rollback_on_failure (op : MutationOp) (prev : Snapshot) (e : String) :
    mutationFinal op prev (.error e) = (prev, some e) ∧
    groupNameIn (mutationFinal (renameGroup 1 "New") prev (.error e)).1 1 = groupNameIn prev 1 :=
  ⟨rfl, rfl⟩

/-- C6: a member update carrying neither a name nor a checked_in field
fails with "No fields to update" and leaves the store unchanged. -/
theorem C6_update_member_no_fields (db : DB) (id : Int) :
    updateMember db id none none = (.error "No fields to update", db) := rfl

/-- C3 (code bug): `createGroup` never returns the created group — the
INSERT carries no RETURNING clause, so the result set is empty and the
row conversion throws; consequently `POST /groups` answers 500, not
201, for every request. -/
theorem C3_createGroup_throws (db : DB) (name : Option String) (now : String) :
    (createGroup db name now).1 = .error undefinedRowError ∧
    (postGroups db name now).1.1 = 500 :=
  ⟨rfl, rfl⟩

/-- C7: renaming an id that identifies no group fails with the error
"Group not found" instead of returning a group. -/
theorem C7_rename_not_found (db : DB) (id : Int) (name : String)
    (h : ∀ g ∈ db.groups, g.id ≠ id) :
    (updateGroup db id name).1 = .error "Group not found" := by
  have hnil : (db.groups.map (fun g => if g.id == id then { g with name := jsTrim name } else g)).filter
      (fun g => g.id == id) = [] := by
    rw [List.filter_eq_nil_iff]
    intro a ha
    obtain ⟨g, hg, rfl⟩ := List.mem_map.mp ha
    have hne := h g hg
    have hbeq : (g.id == id) = false := by simp [hne]
    simp [hbeq]
  simp only [updateGroup]
  rw [hnil]

/-- Witness for C7 at a concrete store missing group 5. -/
theorem C7_rename_not_found_witness :
    (∀ g ∈ (⟨[⟨1, "A", "t0"⟩], [], 2, 1⟩ : DB).groups, g.id ≠ 5) ∧
    (updateGroup (⟨[⟨1, "A", "t0"⟩], [], 2, 1⟩ : DB) 5 "x").1 = .error "Group not found" :=
  ⟨by decide, C7_rename_not_found (⟨[⟨1, "A", "t0"⟩], [], 2, 1⟩ : DB) 5 "x" (by decide)⟩

/-- C10: deleting an absent group or member succeeds without any error
path (the delete functions are total) and leaves the store unchanged,
and deletion is idempotent at the Store interface. -/
theorem C10_delete_idempotent (db : DB) (id : Int) :
    ((∀ g ∈ db.groups, g.id ≠ id) → deleteGroup db id = db) ∧
    ((∀ m ∈ db.members, m.id ≠ id) → deleteMember db id = db) ∧
    deleteGroup (deleteGroup db id) id = deleteGroup db id ∧
    deleteMember (deleteMember db id) id = deleteMember db id := by
  refine ⟨?_, ?_, ?_, ?_⟩
  · intro h
    have hdel : db.groups.filter (fun g => g.id == id) = [] := by
      rw [List.filter_eq_nil_iff]
      intro g hg
      simp [h g hg]
    have hgroups : db.groups.filter (fun g => !(g.id == id)) = db.groups := by
      rw [List.filter_eq_self]
      intro g hg
      simp [h g hg]
    simp [deleteGroup, hdel, hgroups]
  · intro h
    have hmem : db.members.filter (fun m => !(m.id == id)) = db.members := by
      rw [List.filter_eq_self]
      intro m hm
      simp [h m hm]
    simp [deleteMember, hmem]
  · have hdel : (db.groups.filter (fun g => !(g.id == id))).filter (fun g => g.id == id) = [] := by
      rw [List.filter_eq_nil_iff]
      intro g hg
      exact fun hc => by simp [hc] at hg
    simp [deleteGroup, hdel, List.filter_filter]
  · simp [deleteMember, List.filter_filter]

/-- Witness for C10 at a concrete store missing id 99. -/
theorem C10_delete_idempotent_witness :
    (∀ g ∈ (⟨[⟨1, "A", "t0"⟩], [⟨7, 1, "Ann", false, "t1"⟩], 2, 8⟩ : DB).groups, g.id ≠ 99) ∧
    deleteGroup (⟨[⟨1, "A", "t0"⟩], [⟨7, 1, "Ann", false, "t1"⟩], 2, 8⟩ : DB) 99 =
      (⟨[⟨1, "A", "t0"⟩], [⟨7, 1, "Ann", false, "t1"⟩], 2, 8⟩ : DB) :=
  ⟨by decide,
    (C10_delete_idempotent (⟨[⟨1, "A", "t0"⟩], [⟨7, 1, "Ann", false, "t1"⟩], 2, 8⟩ : DB) 99).1
      (by decide)⟩

/-- C8: creation trims the supplied name and falls back to the default
placeholder when the name is missing or whitespace-only, for groups and
members alike: the freshly inserted row carries the trimmed name. -/
theorem C8_create_trims_names (db : DB) (now : String) (gid : Int)
    (hg : db.groups.any (fun g => g.id == gid) = true) :
    ((createGroup db (some "  Roast A  ") now).2.groups.getLast?).map (fun g => g.name)
      = some "Roast A" ∧
    ((createGroup db none now).2.groups.getLast?).map (fun g => g.name) = some "New Group" ∧
    ((createGroup db (some "   ") now).2.groups.getLast?).map (fun g => g.name)
      = some "New Group" ∧
    ((createMember db gid (some "  Roast A  ") now).2.members.getLast?).map (fun m => m.name)
      = some "Roast A" ∧
    ((createMember db gid none now).2.members.getLast?).map (fun m => m.name)
      = some "New Member" := by
  have h1 : defaultedName (some "  Roast A  ") "New Group" = "Roast A" := by decide
  have h2 : defaultedName (some "   ") "New Group" = "New Group" := by decide
  have h3 : defaultedName (some "  Roast A  ") "New Member" = "Roast A" := by decide
  refine ⟨?_, ?_, ?_, ?_, ?_⟩
  · simp [createGroup, h1, List.getLast?_concat]
  · simp [createGroup, defaultedName, List.getLast?_concat]
  · simp [createGroup, h2, List.getLast?_concat]
  · simp [createMember, hg, h3, List.getLast?_concat]
  · simp [createMember, hg, defaultedName, List.getLast?_concat]

/-- Witness for C8 at a concrete store containing group 1. -/
theorem C8_create_trims_names_witness :
    ((⟨[⟨1, "A", "t0"⟩], [], 2, 1⟩ : DB).groups.any (fun g => g.id == 1) = true) ∧
    ((createGroup (⟨[⟨1, "A", "t0"⟩], [], 2, 1⟩ : DB) (some "  Roast A  ") "t5").2.groups.getLast?).map
        (fun g => g.name) = some "Roast A" :=
  ⟨by decide,
    (C8_create_trims_names (⟨[⟨1, "A", "t0"⟩], [], 2, 1⟩ : DB) "t5" 1 (by decide)).1⟩

/-- C4 counterexample: on the store holding group 1 named "A", the
claimed no-op fails — `updateGroup 1 "   "` changes the stored name
(it becomes the empty string). -/
theorem C4_counterexample_rename_whitespace :
    ¬ ((((updateGroup (⟨[⟨1, "A", "t0"⟩], [], 2, 1⟩ : DB) 1 "   ").2.groups.find?
          (fun g => g.id == 1)).map (fun g => g.name)) = some "A") := by decide

/-- C4 (amended): renaming with a name whose trimmed value is empty is
not ignored at the Store interface — `updateGroup` stores the empty
trimmed name; the only guard is the PUT handler's falsiness check,
which answers 400 and leaves the store unchanged solely for the
literal empty string. -/
theorem C4_amended_rename_stores_empty (db : DB) (id : Int) (name : String)
    (g0 : Group) (hws : jsTrim name = "")
    (hfind : db.groups.find? (fun g => g.id == id) = some g0) :
    ((updateGroup db id name).2.groups.find? (fun g => g.id == id)).map (fun g => g.name)
      = some "" ∧
    ∀ (db2 : DB) (i : Int),
      putGroups db2 (some i) (some "") = ((400, .error "id and name are required"), db2) := by
  constructor
  · have hpred : ∀ g : Group,
        ((if g.id == id then { g with name := jsTrim name } else g).id == id) = (g.id == id) := by
      intro g
      cases h : g.id == id <;> simp [h]
    have hgroups : (updateGroup db id name).2.groups
        = db.groups.map (fun g => if g.id == id then { g with name := jsTrim name } else g) := rfl
    rw [hgroups, find?_map_pred _ _ hpred, hfind]
    have hp := @List.find?_some Group (fun g => g.id == id) g0 db.groups hfind
    have hp' : g0.id = id := by simpa using hp
    simp [hp', hws]
  · intro db2 i
    simp [putGroups, jsFalsyStr, jsFalsyInt]

/-- Witness for the amended C4 at a concrete store. -/
theorem C4_amended_witness :
    jsTrim "   " = "" ∧
    (⟨[⟨1, "A", "t0"⟩], [], 2, 1⟩ : DB).groups.find? (fun g => g.id == 1)
      = some ⟨1, "A", "t0"⟩ ∧
    ((((updateGroup (⟨[⟨1, "A", "t0"⟩], [], 2, 1⟩ : DB) 1 "   ").2.groups.find?
        (fun g => g.id == 1)).map (fun g => g.name) = some "") ∧
      ∀ (db2 : DB) (i : Int),
        putGroups db2 (some i) (some "") = ((400, .error "id and name are required"), db2)) :=
  ⟨by decide, by decide,
    C4_amended_rename_stores_empty (⟨[⟨1, "A", "t0"⟩], [], 2, 1⟩ : DB) 1 "   "
      ⟨1, "A", "t0"⟩ (by decide) (by decide)⟩

/-- C9: listAll returns every group ordered by creation time ascending,
each populated with exactly its own members ordered by creation time
ascending, and the two-pass map-based grouping computes exactly the
declarative per-group filter. -/
theorem C9_listAll_ordered_two_pass (db : DB) :
    getAllGroupsWithMembers db = listAllSpec db ∧
    List.Pairwise (fun a b : GroupWithMembers => a.created_at ≤ b.created_at)
      (getAllGroupsWithMembers db) ∧
    ∀ gw ∈ getAllGroupsWithMembers db, List.Pairwise byCreatedM gw.members := by
  refine ⟨getAllGroupsWithMembers_eq db, ?_, ?_⟩
  · rw [getAllGroupsWithMembers_eq]
    unfold listAllSpec
    rw [List.pairwise_map]
    exact List.sorted_insertionSort byCreatedG db.groups
  · intro gw hgw
    rw [getAllGroupsWithMembers_eq] at hgw
    unfold listAllSpec at hgw
    obtain ⟨g, hg, rfl⟩ := List.mem_map.mp hgw
    exact List.Pairwise.filter _ (List.sorted_insertionSort byCreatedM db.members)

/-- A member update touching only name and check-in flag preserves
referential integrity. -/
theorem refIntegrity_applyMemberUpdate (db : DB) (id : Int) (f : Member → Member)
    (hf : ∀ m, (f m).group_id = m.group_id) (hInv : refIntegrity db = true) :
    refIntegrity (applyMemberUpdate db id f).2 = true := by
  rw [refIntegrity_iff] at hInv ⊢
  intro m hm
  obtain ⟨m0, hm0, rfl⟩ := List.mem_map.mp hm
  obtain ⟨g, hg, hgid⟩ := hInv m0 hm0
  refine ⟨g, hg, ?_⟩
  cases h : m0.id == id <;> simp [h, hf, hgid]

/-- C5: after deleting a group, no listAll read shows a member whose
group reference is the deleted id, and every store operation preserves
the invariant that each member references a live group. -/
theorem C5_cascade_integrity (db : DB) (id : Int) (op : StoreOp)
    (hInv : refIntegrity db = true) :
    refIntegrity (applyOp db op) = true ∧
    ∀ gw ∈ getAllGroupsWithMembers (deleteGroup db id), ∀ m ∈ gw.members, m.group_id ≠ id := by
  constructor
  · cases op with
    | createGroup name now =>
      rw [refIntegrity_iff] at hInv ⊢
      intro m hm
      obtain ⟨g, hg, hgid⟩ := hInv m hm
      exact ⟨g, List.mem_append_left _ hg, hgid⟩
    | updateGroup uid uname =>
      rw [refIntegrity_iff] at hInv ⊢
      intro m hm
      obtain ⟨g, hg, hgid⟩ := hInv m hm
      refine ⟨(fun g => if g.id == uid then { g with name := jsTrim uname } else g) g,
        List.mem_map_of_mem _ hg, ?_⟩
      cases h : g.id == uid <;> simp [h] <;> exact hgid
    | deleteGroup did =>
      rw [refIntegrity_iff] at hInv ⊢
      intro m hm
      have hm' := List.mem_filter.mp hm
      obtain ⟨g, hg, hgid⟩ := hInv m hm'.1
      have hgne : g.id ≠ did := by
        intro hc
        have hgdel : g ∈ db.groups.filter (fun g => g.id == did) :=
          List.mem_filter.mpr ⟨hg, by simp [hc]⟩
        have hany : (db.groups.filter (fun g => g.id == did)).any
            (fun g => g.id == m.group_id) = true :=
          List.any_eq_true.mpr ⟨g, hgdel, by simp [hgid]⟩
        have := hm'.2
        simp [hany] at this
      exact ⟨g, List.mem_filter.mpr ⟨hg, by simp [hgne]⟩, hgid⟩
    | createMember gid name now =>
      rw [refIntegrity_iff] at hInv
      by_cases h : db.groups.any (fun g => g.id == gid) = true
      · rw [refIntegrity_iff]
        simp only [applyOp, createMember, h, if_true]
        intro m hm
        rcases List.mem_append.mp hm with hmem | hins
        · exact hInv m hmem
        · obtain ⟨g, hg, hgid⟩ := List.any_eq_true.mp h
          have hm' : m = ⟨db.nextMemberId, gid, defaultedName name "New Member", false, now⟩ := by
            simpa using hins
          subst hm'
          exact ⟨g, hg, by simpa using hgid⟩
      · have hfalse : db.groups.any (fun g => g.id == gid) = false := by
          simpa using h
        rw [refIntegrity_iff]
        simp only [applyOp, createMember, hfalse]
        intro m hm
        exact hInv m hm
    | updateMember uid uname uchecked =>
      cases uname with
      | some n =>
        cases uchecked with
        | some c => exact refIntegrity_applyMemberUpdate db uid _ (fun m => rfl) hInv
        | none => exact refIntegrity_applyMemberUpdate db uid _ (fun m => rfl) hInv
      | none =>
        cases uchecked with
        | some c => exact refIntegrity_applyMemberUpdate db uid _ (fun m => rfl) hInv
        | none => exact hInv
    | deleteMember did =>
      rw [refIntegrity_iff] at hInv ⊢
      intro m hm
      exact hInv m (List.mem_filter.mp hm).1
  · intro gw hgw m hm
    rw [getAllGroupsWithMembers_eq] at hgw
    unfold listAllSpec at hgw
    obtain ⟨g, hg, rfl⟩ := List.mem_map.mp hgw
    have hgmem : g ∈ (deleteGroup db id).groups :=
      ((List.perm_insertionSort byCreatedG _).mem_iff).mp hg
    have hgfil : g ∈ db.groups.filter (fun g => !(g.id == id)) := hgmem
    have hgne : g.id ≠ id := by
      have := (List.mem_filter.mp hgfil).2
      simpa using this
    have hmm := (List.mem_filter.mp hm).2
    have hmg : m.group_id = g.id := by simpa using hmm
    rw [hmg]
    exact hgne

/-- Witness for C5 at a concrete store satisfying the invariant. -/
theorem C5_cascade_integrity_witness :
    refIntegrity (⟨[⟨1, "A", "t0"⟩], [⟨7, 1, "Ann", false, "t1"⟩, ⟨8, 1, "Bo", true, "t2"⟩], 2, 9⟩ : DB)
      = true ∧
    (refIntegrity (applyOp
        (⟨[⟨1, "A", "t0"⟩], [⟨7, 1, "Ann", false, "t1"⟩, ⟨8, 1, "Bo", true, "t2"⟩], 2, 9⟩ : DB)
        (.deleteGroup 1)) = true ∧
      ∀ gw ∈ getAllGroupsWithMembers
          (deleteGroup
            (⟨[⟨1, "A", "t0"⟩], [⟨7, 1, "Ann", false, "t1"⟩, ⟨8, 1, "Bo", true, "t2"⟩], 2, 9⟩ : DB) 1),
        ∀ m ∈ gw.members, m.group_id ≠ 1) :=
  ⟨by decide,
    C5_cascade_integrity
      (⟨[⟨1, "A", "t0"⟩], [⟨7, 1, "Ann", false, "t1"⟩, ⟨8, 1, "Bo", true, "t2"⟩], 2, 9⟩ : DB)
      1 (.deleteGroup 1) (by decide)⟩

/-- C2: `addMember` first publishes an optimistic snapshot holding a
placeholder member with the negative sentinel id; after the server
responds with the created member (id 42), the commit-phase snapshot of
that group holds no negative-id member and exactly one member with
id 42. -/
theorem C2_addMember_reconciliation (prev : Snapshot) (gid tempId : Int) (name : Option String)
    (now : String) (created : Member) (g0 : GroupWithMembers)
    (hfind : prev.find? (fun g => g.id == gid) = some g0)
    (hneg : tempId < 0)
    (hids : ∀ m ∈ g0.members, 0 ≤ m.id)
    (hcreated : created.id = 42)
    (hfresh : ∀ m ∈ g0.members, m.id ≠ 42) :
    (∃ m ∈ membersOf ((addMember gid name tempId now).optimistic prev) gid,
        m.id = tempId ∧ m.id < 0) ∧
    (∀ m ∈ membersOf (commitSnapshot (addMember gid name tempId now) prev (.member created)) gid,
        0 ≤ m.id) ∧
    (membersOf (commitSnapshot (addMember gid name tempId now) prev (.member created)) gid).countP
        (fun m => m.id == 42) = 1 := by
  have hopt : membersOf ((addMember gid name tempId now).optimistic prev) gid
      = g0.members ++ [(⟨tempId, gid, defaultedName name "New Member", false, now⟩ : Member)] := by
    have h := membersOf_mapMembers prev gid g0
      (fun g => g.members ++ [(⟨tempId, gid, defaultedName name "New Member", false, now⟩ : Member)])
      hfind
    exact h
  have hfind2 := find?_mapMembers prev gid g0
    (fun g => g.members ++ [(⟨tempId, gid, defaultedName name "New Member", false, now⟩ : Member)])
    hfind
  have hcommit : membersOf (commitSnapshot (addMember gid name tempId now) prev (.member created)) gid
      = (g0.members ++ [(⟨tempId, gid, defaultedName name "New Member", false, now⟩ : Member)]).map
          (fun m => if m.id == tempId then created else m) := by
    have h := membersOf_mapMembers
      (prev.map (fun g =>
        if g.id == gid then
          { g with members := g.members ++
              [(⟨tempId, gid, defaultedName name "New Member", false, now⟩ : Member)] }
        else g))
      gid
      { g0 with members := g0.members ++
          [(⟨tempId, gid, defaultedName name "New Member", false, now⟩ : Member)] }
      (fun g => g.members.map (fun m => if m.id == tempId then created else m)) hfind2
    exact h
  have hreplace : (g0.members ++ [(⟨tempId, gid, defaultedName name "New Member", false, now⟩ : Member)]).map
        (fun m => if m.id == tempId then created else m)
      = g0.members ++ [created] := by
    rw [List.map_append]
    congr 1
    · apply map_id_of_mem
      intro m hm
      have h1 : (m.id == tempId) = false := by
        have := hids m hm
        simp only [beq_eq_false_iff_ne, ne_eq]
        omega
      simp [h1]
    · simp
  refine ⟨?_, ?_, ?_⟩
  · rw [hopt]
    exact ⟨(⟨tempId, gid, defaultedName name "New Member", false, now⟩ : Member),
      List.mem_append_right _ (by simp), rfl, hneg⟩
  · rw [hcommit, hreplace]
    intro m hm
    rcases List.mem_append.mp hm with hmem | hin
    · exact hids m hmem
    · have : m = created := by simpa using hin
      subst this
      rw [hcreated]
      omega
  · rw [hcommit, hreplace, List.countP_append]
    have h0 : g0.members.countP (fun m => m.id == 42) = 0 := by
      rw [List.countP_eq_zero]
      intro m hm
      simp [hfresh m hm]
    rw [h0]
    simp [List.countP_cons, hcreated]

/-- Witness for C2 at a concrete snapshot: group 1 holds one member
with server id 7, the sentinel is -5, and the server responds with
member id 42. -/
theorem C2_addMember_reconciliation_witness :
    ([⟨1, "G", "t0", [⟨7, 1, "Ann", false, "t1"⟩]⟩] : Snapshot).find? (fun g => g.id == 1)
      = some ⟨1, "G", "t0", [⟨7, 1, "Ann", false, "t1"⟩]⟩ ∧
    ((-5 : Int) < 0) ∧
    ((∃ m ∈ membersOf ((addMember 1 (some "Zed") (-5) "t7").optimistic
          ([⟨1, "G", "t0", [⟨7, 1, "Ann", false, "t1"⟩]⟩] : Snapshot)) 1,
        m.id = -5 ∧ m.id < 0) ∧
      (∀ m ∈ membersOf (commitSnapshot (addMember 1 (some "Zed") (-5) "t7")
            ([⟨1, "G", "t0", [⟨7, 1, "Ann", false, "t1"⟩]⟩] : Snapshot)
            (.member ⟨42, 1, "Zed", false, "t8"⟩)) 1, 0 ≤ m.id) ∧
      (membersOf (commitSnapshot (addMember 1 (some "Zed") (-5) "t7")
            ([⟨1, "G", "t0", [⟨7, 1, "Ann", false, "t1"⟩]⟩] : Snapshot)
            (.member ⟨42, 1, "Zed", false, "t8"⟩)) 1).countP (fun m => m.id == 42) = 1) :=
  ⟨by decide, by decide,
    C2_addMember_reconciliation ([⟨1, "G", "t0", [⟨7, 1, "Ann", false, "t1"⟩]⟩] : Snapshot)
      1 (-5) (some "Zed") "t7" ⟨42, 1, "Zed", false, "t8"⟩
      ⟨1, "G", "t0", [⟨7, 1, "Ann", false, "t1"⟩]⟩
      (by decide) (by decide) (by decide) (by decide) (by decide)⟩

end TaylorRoast
